import Mathlib

/-!
Verification of the BinaryRTS unified-diff engine, selection fallback and
filter conversion, as a shallow embedding of
`binaryrts/cli/src/binaryrts/vcs/diff_file.py`,
`binaryrts/cli/src/binaryrts/commands/select.py` and
`binaryrts/cli/src/binaryrts/commands/utils.py`.

Python strings are modelled as Lean `String` (a wrapper around `List Char`);
string primitives that the source uses (`str.split`, `str.strip`,
`str.lower`, `str.startswith`, `in`, slicing) are re-implemented over
`List Char` with the exact Python semantics the code relies on, restricted
to ASCII where Python would be Unicode-aware (all inputs of interest are
ASCII).  Python's negative-index slicing (`lines[:k]` with `k < 0`) is kept
faithfully through `pyIdx`.
-/

namespace BinaryRTS

/-- Python `str.startswith(pre)`. -/
def pyStartsWith (s pre : String) : Bool :=
  pre.toList.isPrefixOf s.toList

/-- Python slicing index: `xs[:i]` is `take (pyIdx n i)` and `xs[i:]` is
`drop (pyIdx n i)` where `n` is the length; negative indices count from the
end and clamp at 0. -/
def pyIdx (n : Nat) (i : Int) : Nat :=
  if i < 0 then ((n : Int) + i).toNat else i.toNat

/-- Python `line[1:]`. -/
def pyDrop1 (s : String) : String :=
  ⟨s.toList.drop 1⟩

/-- Python `str.strip()` (whitespace at both ends removed; ASCII whitespace). -/
def pyStrip (s : String) : String :=
  ⟨((s.toList.dropWhile Char.isWhitespace).reverse.dropWhile Char.isWhitespace).reverse⟩

/-- Python `str.lower()` (ASCII). -/
def pyLower (s : String) : String :=
  ⟨s.toList.map Char.toLower⟩

/-- Python `"\\".replace` to `"/"`: `filepath.replace("\\", "/")` from
`diff_file.py` (a single-character pattern, hence a per-character map). -/
def normSlashes (s : String) : String :=
  ⟨s.toList.map (fun ch => if ch = '\\' then '/' else ch)⟩

/-- Python substring test `needle in hay`. -/
def containsSub (needle : List Char) : List Char → Bool
  | [] => needle.isEmpty
  | c :: rest => needle.isPrefixOf (c :: rest) || containsSub needle rest

/-- Python `s.split("!!!")` (non-overlapping, left to right). -/
def splitBangs : List Char → List (List Char)
  | [] => [[]]
  | '!' :: '!' :: '!' :: rest => [] :: splitBangs rest
  | c :: rest =>
    match splitBangs rest with
    | [] => [[c]]
    | p :: ps => (c :: p) :: ps

/-- Splitting on the newline character (helper for `splitLinesPy`). -/
def splitNl : List Char → List (List Char)
  | [] => [[]]
  | '\n' :: rest => [] :: splitNl rest
  | c :: rest =>
    match splitNl rest with
    | [] => [[c]]
    | p :: ps => (c :: p) :: ps

/-- Python `str.splitlines()` restricted to `\n` separators: a trailing
newline does not produce a trailing empty line, and `"".splitlines() = []`. -/
def splitLinesPy (s : String) : List String :=
  match s.toList with
  | [] => []
  | cs =>
    let parts := splitNl cs
    (if cs.getLast? = some '\n' then parts.dropLast else parts).map (⟨·⟩)

/-- Python `"\n".join(lines)`. -/
def joinNl (lines : List String) : String :=
  String.intercalate "\n" lines

/-- The splitting of `" b/"`-separated pieces used to model the greedy group
of the header regex `^diff --git a/(?P<filepath>.*) b/.*$` (the greedy `.*`
captures everything up to the last `" b/"`). -/
def splitBSlash : List Char → List (List Char)
  | [] => [[]]
  | ' ' :: 'b' :: '/' :: rest => [] :: splitBSlash rest
  | c :: rest =>
    match splitBSlash rest with
    | [] => [[c]]
    | p :: ps => (c :: p) :: ps

/-- Joining with the `" b/"` separator (inverse half of `splitBSlash`). -/
def joinBSlash (parts : List (List Char)) : List Char :=
  match parts with
  | [] => []
  | [p] => p
  | p :: ps => p ++ ' ' :: 'b' :: '/' :: joinBSlash ps

/-- The `diff --git` header matcher of `DiffFileClient.get_diff`: the line
must start with `diff --git a/` and contain a later `" b/"`; the captured
file path is everything between `a/` and the last `" b/"` (greedy `.*`). -/
def headerPath (line : String) : Option String :=
  if ('d' :: 'i' :: 'f' :: 'f' :: ' ' :: '-' :: '-' :: 'g' :: 'i' :: 't' :: ' ' :: 'a' :: '/' :: []).isPrefixOf line.toList then
    if (splitBSlash (line.toList.drop 13)).length ≥ 2 then
      some ⟨joinBSlash (splitBSlash (line.toList.drop 13)).dropLast⟩
    else none
  else none

/-- Change actions of `binaryrts.vcs.base.ChangelistItemAction` as used by
`diff_file.py`. -/
inductive Action where
  | ADDED
  | MODIFIED
  | DELETED
deriving DecidableEq, Repr

/-- Action classification of `get_diff`: inspect the line following a
`diff --git` header; `new file mode` means ADDED, `deleted file mode` means
DELETED, anything else (or no following line) means MODIFIED. -/
def actionOf (next : Option String) : Action :=
  match next with
  | none => Action.MODIFIED
  | some l =>
    if containsSub ('n' :: 'e' :: 'w' :: ' ' :: 'f' :: 'i' :: 'l' :: 'e' :: ' ' :: 'm' :: 'o' :: 'd' :: 'e' :: []) l.toList then Action.ADDED
    else if containsSub ('d' :: 'e' :: 'l' :: 'e' :: 't' :: 'e' :: 'd' :: ' ' :: 'f' :: 'i' :: 'l' :: 'e' :: ' ' :: 'm' :: 'o' :: 'd' :: 'e' :: []) l.toList then Action.DELETED
    else Action.MODIFIED

/-- A parsed hunk, as built by `DiffFileClient._parse_hunks`: 1-indexed
start lines and counts from the `@@` header (counts default to 1 when
omitted) plus the retained tagged lines. -/
structure Hunk where
  old_start : Nat
  old_count : Nat
  new_start : Nat
  new_count : Nat
  lines : List String
deriving DecidableEq, Repr

/-- The replacement span that `_forward_apply_hunk` builds: keep `+` and
context lines (tag stripped), drop `-` and `\` lines. -/
def forwardSpan (h : Hunk) : List String :=
  h.lines.filterMap fun l =>
    if pyStartsWith l "+" then some (pyDrop1 l)
    else if pyStartsWith l "-" then none
    else if pyStartsWith l " " then some (pyDrop1 l)
    else none

/-- The replacement span that `_reverse_apply_hunk` builds: keep `-` and
context lines (tag stripped), drop `+` and `\` lines. -/
def reverseSpan (h : Hunk) : List String :=
  h.lines.filterMap fun l =>
    if pyStartsWith l "-" then some (pyDrop1 l)
    else if pyStartsWith l "+" then none
    else if pyStartsWith l " " then some (pyDrop1 l)
    else none

/-- `DiffFileClient._forward_apply_hunk`: splice `forwardSpan` over
`lines[old_start-1 : old_start-1+old_count]` (Python slice semantics,
including the negative-index case `old_start = 0`). -/
def forward_apply_hunk (lines : List String) (h : Hunk) : List String :=
  let n := lines.length
  let startIdx : Int := (h.old_start : Int) - 1
  let endIdx : Int := startIdx + (h.old_count : Int)
  lines.take (pyIdx n startIdx) ++ forwardSpan h ++ lines.drop (pyIdx n endIdx)

/-- `DiffFileClient._reverse_apply_hunk`: splice `reverseSpan` over
`lines[new_start-1 : new_start-1+new_count]`. -/
def reverse_apply_hunk (lines : List String) (h : Hunk) : List String :=
  let n := lines.length
  let startIdx : Int := (h.new_start : Int) - 1
  let endIdx : Int := startIdx + (h.new_count : Int)
  lines.take (pyIdx n startIdx) ++ reverseSpan h ++ lines.drop (pyIdx n endIdx)

/-- The hunk loop of `_forward_apply_diff`: `for hunk in reversed(hunks):
current_lines = self._forward_apply_hunk(current_lines, hunk)`. -/
def forward_apply_hunks (lines : List String) (hunks : List Hunk) : List String :=
  hunks.reverse.foldl forward_apply_hunk lines

/-- The hunk loop of `_reverse_apply_diff`. -/
def reverse_apply_hunks (lines : List String) (hunks : List Hunk) : List String :=
  hunks.reverse.foldl reverse_apply_hunk lines

/-- Leading ASCII digit run; fails when there is no digit (models one `\d+`
group of the hunk-header regex). -/
def parseDigits (cs : List Char) : Option (Nat × List Char) :=
  let ds := cs.takeWhile Char.isDigit
  if ds.isEmpty then none
  else some (ds.foldl (fun n c => n * 10 + (c.toNat - 48)) 0, cs.drop ds.length)

/-- The optional `(?:,(\d+))?` group: a comma must be followed by digits,
otherwise the whole header match fails; absence of a comma is fine. -/
def parseOptCount : List Char → Option (Option Nat × List Char)
  | ',' :: r => (parseDigits r).map (fun p => (some p.1, p.2))
  | r => some (none, r)

/-- `DiffFileClient.hunk_pattern`
(`^@@ -(\d+)(?:,(\d+))? \+(\d+)(?:,(\d+))? @@`, via `re.match`, so anchored
at the start with arbitrary trailing text): returns
`(old_start, old_count, new_start, new_count)` with counts defaulting to 1. -/
def parseHunkHeader (line : String) : Option (Nat × Nat × Nat × Nat) :=
  match line.toList with
  | '@' :: '@' :: ' ' :: '-' :: r0 =>
    match parseDigits r0 with
    | none => none
    | some (os, r1) =>
      match parseOptCount r1 with
      | none => none
      | some (ocOpt, r2) =>
        match r2 with
        | ' ' :: '+' :: r3 =>
          match parseDigits r3 with
          | none => none
          | some (ns, r4) =>
            match parseOptCount r4 with
            | none => none
            | some (ncOpt, r5) =>
              match r5 with
              | ' ' :: '@' :: '@' :: _ => some (os, ocOpt.getD 1, ns, ncOpt.getD 1)
              | _ => none
        | _ => none
  | _ => none

/-- Whether `_parse_hunks` retains a line as hunk content:
`line.startswith(("+", "-", " ", "\\"))`. -/
def isTagged (line : String) : Bool :=
  pyStartsWith line "+" || pyStartsWith line "-" || pyStartsWith line " " || pyStartsWith line "\\"

/-- The accumulator loop of `DiffFileClient._parse_hunks`. -/
def parseHunksLoop (cur : Option Hunk) (acc : List Hunk) : List String → List Hunk
  | [] => acc ++ cur.toList
  | line :: rest =>
    match parseHunkHeader line with
    | some (os, oc, ns, nc) =>
      parseHunksLoop (some ⟨os, oc, ns, nc, []⟩) (acc ++ cur.toList) rest
    | none =>
      match cur with
      | some h =>
        if isTagged line then
          parseHunksLoop (some ⟨h.old_start, h.old_count, h.new_start, h.new_count, h.lines ++ [line]⟩) acc rest
        else parseHunksLoop (some h) acc rest
      | none => parseHunksLoop none acc rest

/-- `DiffFileClient._parse_hunks` on the split lines of a diff section. -/
def parse_hunks (sectionLines : List String) : List Hunk :=
  parseHunksLoop none [] sectionLines

/-- Insertion into the `items: Set[ChangelistItem]` of `get_diff`
(`ChangelistItem` equality is by `(filepath, action)` per
`binaryrts.vcs.base`), modelled as an insertion-ordered duplicate-free
list. -/
def insertItem (items : List (String × Action)) (it : String × Action) : List (String × Action) :=
  if it ∈ items then items else items ++ [it]

/-- Dictionary assignment `d[k] = v` on an association list. -/
def setAssoc (d : List (String × String)) (k v : String) : List (String × String) :=
  if d.any (fun p => p.1 = k) then d.map (fun p => if p.1 = k then (k, v) else p)
  else d ++ [(k, v)]

/-- Dictionary lookup `d.get(k)` / `k in d`. -/
def getAssoc (d : List (String × String)) (k : String) : Option String :=
  (d.find? (fun p => p.1 = k)).map Prod.snd

/-- The mutable locals of the `get_diff` parsing loop. -/
structure ParseState where
  items : List (String × Action)
  currentFile : Option String
  currentLines : List String
  fileDiffs : List (String × String)
deriving Repr

/-- Saving the current file's diff section:
`self._file_diffs[current_file] = "\n".join(current_diff_lines)`. -/
def saveCurrent (st : ParseState) : ParseState :=
  match st.currentFile with
  | some f => ⟨st.items, st.currentFile, st.currentLines, setAssoc st.fileDiffs f (joinNl st.currentLines)⟩
  | none => st

/-- One iteration of the `get_diff` loop body, given the line and the
following line (`lines[idx+1]` when it exists). -/
def stepLine (st : ParseState) (line : String) (next : Option String) : ParseState :=
  if pyStartsWith line "diff --git" then
    let st1 := saveCurrent st
    match headerPath line with
    | some fp =>
      ⟨insertItem st1.items (fp, actionOf next), some fp, [line], st1.fileDiffs⟩
    | none => st1
  else
    match st.currentFile with
    | some _ => ⟨st.items, st.currentFile, st.currentLines ++ [line], st.fileDiffs⟩
    | none => st

/-- The `for idx, line in enumerate(lines)` loop of `get_diff`; the lookahead
`lines[idx+1]` is the head of the remaining list. -/
def parseLoop (st : ParseState) : List String → ParseState
  | [] => st
  | line :: rest => parseLoop (stepLine st line rest.head?) rest

/-- The parse outcome cached by a `DiffFileClient`: the changelist items and
the per-file diff sections. -/
structure ParseResult where
  items : List (String × Action)
  fileDiffs : List (String × String)
deriving Repr

/-- `DiffFileClient.get_diff` on the split lines of the diff content
(including the final save of the last file's section). -/
def parseDiff (lines : List String) : ParseResult :=
  let st := parseLoop ⟨[], none, [], []⟩ lines
  let st1 := saveCurrent st
  ⟨st1.items, st1.fileDiffs⟩

/-- The state of a `DiffFileClient`: the repository state flag, the diff
content, the disk snapshot (`None` for a missing file) and the memoized
parse (`self._changelist` / `self._file_diffs`). -/
structure DiffFileClient where
  repoState : String
  diffContent : String
  disk : String → Option String
  changelistCache : Option ParseResult

/-- `DiffFileClient.get_diff`: return the cached changelist when present,
otherwise parse the diff content and cache the result. -/
def get_diff (c : DiffFileClient) : ParseResult × DiffFileClient :=
  match c.changelistCache with
  | some r => (r, c)
  | none =>
    let r := parseDiff (splitLinesPy c.diffContent)
    (r, ⟨c.repoState, c.diffContent, c.disk, some r⟩)

/-- `DiffFileClient._read_file_from_disk`: on-disk content, or the empty
string when the file does not exist. -/
def read_file_from_disk (c : DiffFileClient) (fp : String) : String :=
  (c.disk fp).getD ""

/-- The changelist scan shared by `_get_new_file_content` and
`_get_old_file_content`:
`str(ci.filepath).replace("\\", "/") == filepath`. -/
def findItem (items : List (String × Action)) (fp : String) : Option (String × Action) :=
  items.find? (fun it => normSlashes it.1 = fp)

/-- The shared loop of `_reconstruct_added_file` / `_reconstruct_deleted_file`:
lines after a `@@` line are collected; `keep`-tagged and context lines are
kept with the tag stripped, everything else is skipped. -/
def reconstructLoop (keep : String) (inHunk : Bool) : List String → List String
  | [] => []
  | line :: rest =>
    if pyStartsWith line "@@" then reconstructLoop keep true rest
    else if inHunk then
      if pyStartsWith line keep then pyDrop1 line :: reconstructLoop keep inHunk rest
      else if pyStartsWith line " " then pyDrop1 line :: reconstructLoop keep inHunk rest
      else reconstructLoop keep inHunk rest
    else reconstructLoop keep inHunk rest

/-- `DiffFileClient._reconstruct_added_file` (all `+` and context lines). -/
def reconstruct_added_file (pr : ParseResult) (fp : String) : String :=
  match getAssoc pr.fileDiffs fp with
  | none => ""
  | some sec => joinNl (reconstructLoop "+" false (splitLinesPy sec))

/-- `DiffFileClient._reconstruct_deleted_file` (all `-` and context lines). -/
def reconstruct_deleted_file (pr : ParseResult) (fp : String) : String :=
  match getAssoc pr.fileDiffs fp with
  | none => ""
  | some sec => joinNl (reconstructLoop "-" false (splitLinesPy sec))

/-- `DiffFileClient._forward_apply_diff`: split the current (old-side)
content, apply all hunks from the last to the first, and rejoin. -/
def forward_apply_diff (pr : ParseResult) (fp : String) (cur : String) : String :=
  match getAssoc pr.fileDiffs fp with
  | none => cur
  | some sec => joinNl (forward_apply_hunks (splitLinesPy cur) (parse_hunks (splitLinesPy sec)))

/-- `DiffFileClient._reverse_apply_diff`. -/
def reverse_apply_diff (pr : ParseResult) (fp : String) (cur : String) : String :=
  match getAssoc pr.fileDiffs fp with
  | none => cur
  | some sec => joinNl (reverse_apply_hunks (splitLinesPy cur) (parse_hunks (splitLinesPy sec)))

/-- `DiffFileClient._get_new_file_content`: forward reconstruction of the
post-change content (parses the diff first, threading the memoized state). -/
def get_new_file_content (c : DiffFileClient) (fp : String) : String × DiffFileClient :=
  let pr := (get_diff c).1
  let c1 := (get_diff c).2
  match findItem pr.items fp with
  | none => (read_file_from_disk c1 fp, c1)
  | some (_, Action.DELETED) => ("", c1)
  | some (_, Action.ADDED) => (reconstruct_added_file pr fp, c1)
  | some (_, Action.MODIFIED) =>
    let cur := read_file_from_disk c1 fp
    if cur = "" then ("", c1) else (forward_apply_diff pr fp cur, c1)

/-- `DiffFileClient._get_old_file_content`: reverse reconstruction of the
pre-change content.  Note the source asymmetry: the MODIFIED branch checks
`full_path.exists()` (not content emptiness) before reverse-applying. -/
def get_old_file_content (c : DiffFileClient) (fp : String) : String × DiffFileClient :=
  let pr := (get_diff c).1
  let c1 := (get_diff c).2
  match findItem pr.items fp with
  | none => (read_file_from_disk c1 fp, c1)
  | some (_, Action.ADDED) => ("", c1)
  | some (_, Action.DELETED) => (reconstruct_deleted_file pr fp, c1)
  | some (_, Action.MODIFIED) =>
    match c1.disk fp with
    | none => ("", c1)
    | some cur => (reverse_apply_diff pr fp cur, c1)

/-- The revision-side test of `get_file_content_at_revision`:
`revision.lower() in ("head", "new", "to", "")`. -/
def is_new_revision (rev : String) : Bool :=
  pyLower rev = "head" || pyLower rev = "new" || pyLower rev = "to" || pyLower rev = ""

/-- `DiffFileClient.get_file_content_at_revision`: normalizes the path,
classifies the revision as old/new side and dispatches on `repo_state`
(disk reads use the unnormalized path, reconstruction the normalized one,
as in the source).  Absolute-path unprefixing is not modelled; paths are
taken relative to the root. -/
def get_file_content_at_revision (c : DiffFileClient) (rev fp : String) : String × DiffFileClient :=
  let fpN := normSlashes fp
  if is_new_revision rev then
    if c.repoState = "new" then (read_file_from_disk c fp, c)
    else get_new_file_content c fpN
  else
    if c.repoState = "new" then get_old_file_content c fpN
    else (read_file_from_disk c fp, c)

/-- The per-line step of `_convert_gtest_filter`: strip, skip empty lines,
split on `!!!`; three or more parts give `Suite.Case`, exactly two give
`Suite.*`, fewer are skipped. -/
def gtestLine (line : String) : Option String :=
  let l := pyStrip line
  if l.toList = [] then none
  else
    match splitBangs l.toList with
    | _ :: s :: c :: _ => some ⟨s ++ '.' :: c⟩
    | [_, s] => some ⟨s ++ '.' :: '*' :: []⟩
    | _ => none

/-- `_convert_gtest_filter` from `commands/utils.py`: map each line and join
with `:`. -/
def convert_gtest_filter (lines : List String) : String :=
  String.intercalate ":" (lines.filterMap gtestLine)

/-- The regex `re.match(r"\*!!!([^!]+)!!!\*", line)` of
`_convert_ctest_filter`: a `*!!!` prefix, a nonempty run of non-`!`
characters, then `!!!*` (arbitrary trailing text allowed, since `re.match`
only anchors the start). -/
def ctestMatch (cs : List Char) : Option (List Char) :=
  match cs with
  | '*' :: '!' :: '!' :: '!' :: rest =>
    let name := rest.takeWhile (fun ch => ch != '!')
    if name = [] then none
    else if ('!' :: '!' :: '!' :: '*' :: []).isPrefixOf (rest.drop name.length) then some name
    else none
  | _ => none

/-- The per-line step of `_convert_ctest_filter`: strip, skip empty lines,
try the wildcard regex, otherwise best-effort split on `!!!` and use the
second part. -/
def ctestLine (line : String) : Option String :=
  let l := pyStrip line
  if l.toList = [] then none
  else
    match ctestMatch l.toList with
    | some name => some ⟨name⟩
    | none =>
      match splitBangs l.toList with
      | _ :: p :: _ => some ⟨p⟩
      | _ => none

/-- `_convert_ctest_filter`: map each line and join with `|`. -/
def convert_ctest_filter (lines : List String) : String :=
  String.intercalate "|" (lines.filterMap ctestLine)

/-- Modelled from the spec: `SelectionCause` of `binaryrts.rts.base` (not
under `src/`); only the enumerated cause names are needed, in particular
`SELECTION_FAILURE`. -/
inductive SelectionCause where
  | entityModified
  | entityAdded
  | scopeOverride
  | overloadMatch
  | virtualOverride
  | nonFunctionalChange
  | generatedCode
  | retestAllRegex
  | SELECTION_FAILURE
deriving DecidableEq, Repr

/-- The three artifacts a selection run writes: `included.txt`,
`excluded.txt` and the `selection-causes.txt` mapping. -/
structure RunOutput where
  includedFile : String
  excludedFile : String
  causesFile : List (String × List SelectionCause)
deriving DecidableEq, Repr

/-- The retest-all sentinel written by the `except` branch of
`cpp._run_rts` and `syscalls` in `commands/select.py`: `"*\n"` as the
included list, an empty excluded list, and
`{"*": [SelectionCause.SELECTION_FAILURE.value]}` as the causes mapping. -/
def retestAllSentinel : RunOutput :=
  ⟨"*\n", "", [("*", [SelectionCause.SELECTION_FAILURE])]⟩

/-- `cpp._run_rts` / the `syscalls` command body from `commands/select.py`:
the analysis (`rts_algo.select_tests`, which lives outside `src/`) is
abstracted as an `Except` value, and the test-list formatter
(`format_test_list`, also outside `src/`) as a function argument.  A
successful analysis writes the formatted included/excluded lists and the
causes mapping; any raised exception is caught and the retest-all sentinel
is written instead — the function is total, so no exception escapes. -/
def run_rts (fmt : List String → String)
    (analysis : Except String (List String × List String × List (String × List SelectionCause))) :
    RunOutput :=
  match analysis with
  | Except.ok r => ⟨fmt r.1, fmt r.2.1, r.2.2⟩
  | Except.error _ => retestAllSentinel

/-- Consistency of a hunk list with an old/new content pair: the hunks, in
appearance order, carve the old buffer into `pre ++ oldSpan ++ rest` and the
new buffer into `pre ++ newSpan ++ rest'` at the 1-indexed positions the
headers announce, with the header counts matching the span lengths.  This
is what it means for `new` to be "the new-side content" of `old` under the
diff, and is the implicit premise of the spec's round-trip property. -/
inductive Fits : Nat → Nat → List Hunk → List String → List String → Prop where
  | nil : ∀ opos npos L, Fits opos npos [] L L
  | cons : ∀ opos npos (h : Hunk) hs (pre olRest nlRest : List String),
      h.old_start = opos + pre.length + 1 →
      h.new_start = npos + pre.length + 1 →
      h.old_count = (reverseSpan h).length →
      h.new_count = (forwardSpan h).length →
      Fits (opos + pre.length + h.old_count) (npos + pre.length + h.new_count) hs olRest nlRest →
      Fits opos npos (h :: hs) (pre ++ reverseSpan h ++ olRest) (pre ++ forwardSpan h ++ nlRest)

theorem pyIdx_natCast (n k : Nat) : pyIdx n (k : Int) = k := by
  simp [pyIdx]

theorem forward_apply_hunk_splice (A C D : List String) (h : Hunk)
    (hstart : h.old_start = A.length + 1) (hcount : h.old_count = C.length) :
    forward_apply_hunk (A ++ C ++ D) h = A ++ forwardSpan h ++ D := by
  have hint : ((h.old_start : Int) - 1) = ((A.length : Nat) : Int) := by
    rw [hstart]; push_cast; ring
  have hint2 : ((A.length : Nat) : Int) + (h.old_count : Int) = (((A.length + C.length : Nat)) : Int) := by
    rw [hcount]; push_cast; ring
  have htake : (A ++ C ++ D).take A.length = A := by
    rw [List.append_assoc]; exact List.take_left A (C ++ D)
  have hdrop : (A ++ C ++ D).drop (A.length + C.length) = D := by
    rw [← List.length_append A C]; exact List.drop_left (A ++ C) D
  simp only [forward_apply_hunk, hint, hint2, pyIdx_natCast, htake, hdrop]

theorem reverse_apply_hunk_splice (A C D : List String) (h : Hunk)
    (hstart : h.new_start = A.length + 1) (hcount : h.new_count = C.length) :
    reverse_apply_hunk (A ++ C ++ D) h = A ++ reverseSpan h ++ D := by
  have hint : ((h.new_start : Int) - 1) = ((A.length : Nat) : Int) := by
    rw [hstart]; push_cast; ring
  have hint2 : ((A.length : Nat) : Int) + (h.new_count : Int) = (((A.length + C.length : Nat)) : Int) := by
    rw [hcount]; push_cast; ring
  have htake : (A ++ C ++ D).take A.length = A := by
    rw [List.append_assoc]; exact List.take_left A (C ++ D)
  have hdrop : (A ++ C ++ D).drop (A.length + C.length) = D := by
    rw [← List.length_append A C]; exact List.drop_left (A ++ C) D
  simp only [reverse_apply_hunk, hint, hint2, pyIdx_natCast, htake, hdrop]

theorem forward_apply_hunks_cons (lines : List String) (h : Hunk) (hs : List Hunk) :
    forward_apply_hunks lines (h :: hs) = forward_apply_hunk (forward_apply_hunks lines hs) h := by
  simp [forward_apply_hunks, List.foldl_append]

theorem reverse_apply_hunks_cons (lines : List String) (h : Hunk) (hs : List Hunk) :
    reverse_apply_hunks lines (h :: hs) = reverse_apply_hunk (reverse_apply_hunks lines hs) h := by
  simp [reverse_apply_hunks, List.foldl_append]

theorem reverse_fits {opos npos : Nat} {hs : List Hunk} {ol nl : List String}
    (hfit : Fits opos npos hs ol nl) :
    ∀ P : List String, P.length = npos → reverse_apply_hunks (P ++ nl) hs = P ++ ol := by
  induction hfit with
  | nil opos npos L =>
    intro P hP
    simp [reverse_apply_hunks]
  | cons opos npos h hs pre olRest nlRest hos hns hoc hnc hfit ih =>
    intro P hP
    rw [reverse_apply_hunks_cons]
    have hbuf : P ++ (pre ++ forwardSpan h ++ nlRest) = (P ++ pre ++ forwardSpan h) ++ nlRest := by
      simp [List.append_assoc]
    have hlen : (P ++ pre ++ forwardSpan h).length = npos + pre.length + h.new_count := by
      simp only [List.length_append, hP]; omega
    rw [hbuf, ih (P ++ pre ++ forwardSpan h) hlen]
    have hres := reverse_apply_hunk_splice (P ++ pre) (forwardSpan h) olRest h
      (by simp only [List.length_append, hP]; omega) hnc
    have hshape : (P ++ pre ++ forwardSpan h) ++ olRest = (P ++ pre) ++ forwardSpan h ++ olRest := by
      simp [List.append_assoc]
    rw [hshape, hres]
    simp [List.append_assoc]

theorem forward_fits {opos npos : Nat} {hs : List Hunk} {ol nl : List String}
    (hfit : Fits opos npos hs ol nl) :
    ∀ P : List String, P.length = opos → forward_apply_hunks (P ++ ol) hs = P ++ nl := by
  induction hfit with
  | nil opos npos L =>
    intro P hP
    simp [forward_apply_hunks]
  | cons opos npos h hs pre olRest nlRest hos hns hoc hnc hfit ih =>
    intro P hP
    rw [forward_apply_hunks_cons]
    have hbuf : P ++ (pre ++ reverseSpan h ++ olRest) = (P ++ pre ++ reverseSpan h) ++ olRest := by
      simp [List.append_assoc]
    have hlen : (P ++ pre ++ reverseSpan h).length = opos + pre.length + h.old_count := by
      simp only [List.length_append, hP]; omega
    rw [hbuf, ih (P ++ pre ++ reverseSpan h) hlen]
    have hres := forward_apply_hunk_splice (P ++ pre) (reverseSpan h) nlRest h
      (by simp only [List.length_append, hP]; omega) hoc
    have hshape : (P ++ pre ++ reverseSpan h) ++ nlRest = (P ++ pre) ++ reverseSpan h ++ nlRest := by
      simp [List.append_assoc]
    rw [hshape, hres]
    simp [List.append_assoc]

/-- C1: any exception raised during analysis degrades the run to the
retest-all sentinel — the included list is exactly the wildcard line `*`,
the excluded list is empty, and the causes mapping is exactly
`{"*": [SELECTION_FAILURE]}`; since `run_rts` is a total function of the
analysis outcome, the exception is never propagated to the caller. -/
theorem claim_C1 (fmt : List String → String)
    (analysis : Except String (List String × List String × List (String × List SelectionCause)))
    (e : String) (herr : analysis = Except.error e) :
    run_rts fmt analysis = retestAllSentinel ∧
    splitLinesPy (run_rts fmt analysis).includedFile = ["*"] ∧
    (run_rts fmt analysis).excludedFile = "" ∧
    (run_rts fmt analysis).causesFile = [("*", [SelectionCause.SELECTION_FAILURE])] := by
  subst herr
  refine ⟨rfl, ?_, rfl, rfl⟩
  show splitLinesPy retestAllSentinel.includedFile = ["*"]
  decide

/-- Witness for C1 at a concrete failing analysis. -/
theorem claim_C1_witness :
    run_rts joinNl (Except.error "lookup table entry out of range") = retestAllSentinel ∧
    splitLinesPy (run_rts joinNl (Except.error "lookup table entry out of range")).includedFile = ["*"] ∧
    (run_rts joinNl (Except.error "lookup table entry out of range")).excludedFile = "" ∧
    (run_rts joinNl (Except.error "lookup table entry out of range")).causesFile = [("*", [SelectionCause.SELECTION_FAILURE])] :=
  claim_C1 joinNl (Except.error "lookup table entry out of range") "lookup table entry out of range" rfl

/-- C2: for a MODIFIED file whose old/new line contents are related by the
parsed hunks (`Fits 0 0`, the formal reading of "the new-side content" of
the diff), reverse-applying all hunks to the new side recovers the old
side, forward-applying all hunks to the old side recovers the new side,
and hence reverse followed by forward is the identity on the new side. -/
theorem claim_C2 (hs : List Hunk) (oldL newL : List String)
    (hfit : Fits 0 0 hs oldL newL) :
    reverse_apply_hunks newL hs = oldL ∧
    forward_apply_hunks oldL hs = newL ∧
    forward_apply_hunks (reverse_apply_hunks newL hs) hs = newL := by
  have hrev := reverse_fits hfit [] rfl
  have hfwd := forward_fits hfit [] rfl
  simp only [List.nil_append] at hrev hfwd
  exact ⟨hrev, hfwd, by rw [hrev, hfwd]⟩

/-- Witness for C2: the spec's concrete two-hunk scenario — old lines
`[A,B,C,D,E]`, hunk `@@ -1,1 +1,1 @@` replacing `A` with `A2` and hunk
`@@ -4,1 +4,1 @@` replacing `D` with `D2`; forward-apply yields
`[A2,B,C,D2,E]` and reverse-apply of that yields back `[A,B,C,D,E]`. -/
theorem claim_C2_witness :
    Fits 0 0 [⟨1, 1, 1, 1, ["-A", "+A2"]⟩, ⟨4, 1, 4, 1, ["-D", "+D2"]⟩]
      ["A", "B", "C", "D", "E"] ["A2", "B", "C", "D2", "E"] ∧
    forward_apply_hunks ["A", "B", "C", "D", "E"]
      [⟨1, 1, 1, 1, ["-A", "+A2"]⟩, ⟨4, 1, 4, 1, ["-D", "+D2"]⟩] = ["A2", "B", "C", "D2", "E"] ∧
    reverse_apply_hunks ["A2", "B", "C", "D2", "E"]
      [⟨1, 1, 1, 1, ["-A", "+A2"]⟩, ⟨4, 1, 4, 1, ["-D", "+D2"]⟩] = ["A", "B", "C", "D", "E"] := by
  have f2 : Fits 4 4 [] ["E"] ["E"] := Fits.nil 4 4 ["E"]
  have f1 : Fits 1 1 [⟨4, 1, 4, 1, ["-D", "+D2"]⟩] ["B", "C", "D", "E"] ["B", "C", "D2", "E"] :=
    Fits.cons 1 1 ⟨4, 1, 4, 1, ["-D", "+D2"]⟩ [] ["B", "C"] ["E"] ["E"]
      (by decide) (by decide) (by decide) (by decide) f2
  have f0 : Fits 0 0 [⟨1, 1, 1, 1, ["-A", "+A2"]⟩, ⟨4, 1, 4, 1, ["-D", "+D2"]⟩]
      ["A", "B", "C", "D", "E"] ["A2", "B", "C", "D2", "E"] :=
    Fits.cons 0 0 ⟨1, 1, 1, 1, ["-A", "+A2"]⟩ [⟨4, 1, 4, 1, ["-D", "+D2"]⟩]
      [] ["B", "C", "D", "E"] ["B", "C", "D2", "E"]
      (by decide) (by decide) (by decide) (by decide) f1
  have hmain := claim_C2 _ _ _ f0
  exact ⟨f0, hmain.2.1, hmain.1⟩

/-- C3: hunks are applied from the last one (in appearance order) to the
first, and a single forward hunk application splices the span of kept
context/`+` lines over `[old_start-1, old_start-1+old_count)` of the current
buffer; reverse application mirrors this with `[new_start-1,
new_start-1+new_count)` and the span of kept context/`-` lines. -/
theorem claim_C3 (lines : List String) (h : Hunk) (hs : List Hunk)
    (hos : 1 ≤ h.old_start) (hns : 1 ≤ h.new_start) :
    forward_apply_hunks lines (hs ++ [h]) = forward_apply_hunks (forward_apply_hunk lines h) hs ∧
    reverse_apply_hunks lines (hs ++ [h]) = reverse_apply_hunks (reverse_apply_hunk lines h) hs ∧
    forward_apply_hunk lines h =
      lines.take (h.old_start - 1) ++ forwardSpan h ++ lines.drop (h.old_start - 1 + h.old_count) ∧
    reverse_apply_hunk lines h =
      lines.take (h.new_start - 1) ++ reverseSpan h ++ lines.drop (h.new_start - 1 + h.new_count) := by
  refine ⟨?_, ?_, ?_, ?_⟩
  · simp [forward_apply_hunks, List.reverse_append]
  · simp [reverse_apply_hunks, List.reverse_append]
  · have e1 : ((h.old_start : Int) - 1) = ((h.old_start - 1 : Nat) : Int) := by omega
    have e2 : ((h.old_start - 1 : Nat) : Int) + (h.old_count : Int) = ((h.old_start - 1 + h.old_count : Nat) : Int) := by push_cast; ring
    simp only [forward_apply_hunk, e1, e2, pyIdx_natCast]
  · have e1 : ((h.new_start : Int) - 1) = ((h.new_start - 1 : Nat) : Int) := by omega
    have e2 : ((h.new_start - 1 : Nat) : Int) + (h.new_count : Int) = ((h.new_start - 1 + h.new_count : Nat) : Int) := by push_cast; ring
    simp only [reverse_apply_hunk, e1, e2, pyIdx_natCast]

/-- Witness for C3 at the concrete two-hunk scenario. -/
theorem claim_C3_witness :
    1 ≤ (⟨1, 1, 1, 1, ["-A", "+A2"]⟩ : Hunk).old_start ∧
    forward_apply_hunks ["A", "B", "C", "D", "E"]
        ([⟨4, 1, 4, 1, ["-D", "+D2"]⟩] ++ [⟨1, 1, 1, 1, ["-A", "+A2"]⟩]) =
      forward_apply_hunks (forward_apply_hunk ["A", "B", "C", "D", "E"] ⟨1, 1, 1, 1, ["-A", "+A2"]⟩)
        [⟨4, 1, 4, 1, ["-D", "+D2"]⟩] ∧
    forward_apply_hunk ["A", "B", "C", "D", "E"] ⟨1, 1, 1, 1, ["-A", "+A2"]⟩ =
      List.take 0 ["A", "B", "C", "D", "E"] ++ forwardSpan ⟨1, 1, 1, 1, ["-A", "+A2"]⟩ ++
        List.drop 1 ["A", "B", "C", "D", "E"] :=
  ⟨by decide,
   (claim_C3 ["A", "B", "C", "D", "E"] ⟨1, 1, 1, 1, ["-A", "+A2"]⟩ [⟨4, 1, 4, 1, ["-D", "+D2"]⟩]
     (by decide) (by decide)).1,
   (claim_C3 ["A", "B", "C", "D", "E"] ⟨1, 1, 1, 1, ["-A", "+A2"]⟩ [⟨4, 1, 4, 1, ["-D", "+D2"]⟩]
     (by decide) (by decide)).2.2.1⟩

/-- The changelist item contributed by position `i` of the diff lines, when
line `i` is a matching `diff --git` header: the captured path paired with
the action inferred from the following line. -/
def expectedItem (lines : List String) (i : Nat) : Option (String × Action) :=
  (lines[i]?).bind (fun l => (headerPath l).map (fun fp => (fp, actionOf lines[i + 1]?)))

/-- All changelist items contributed by header lines, in appearance order. -/
def headerItems (lines : List String) : List (String × Action) :=
  (List.range lines.length).filterMap (expectedItem lines)

theorem expectedItem_nil (i : Nat) : expectedItem [] i = none := by
  simp [expectedItem]

theorem expectedItem_cons_zero (line : String) (rest : List String) :
    expectedItem (line :: rest) 0 =
      (headerPath line).map (fun fp => (fp, actionOf rest.head?)) := by
  simp [expectedItem, List.head?_eq_getElem?]

theorem expectedItem_cons_succ (line : String) (rest : List String) (i : Nat) :
    expectedItem (line :: rest) (i + 1) = expectedItem rest i := by
  simp [expectedItem]

theorem expectedItem_lt (lines : List String) (i : Nat) (it : String × Action)
    (h : expectedItem lines i = some it) : i < lines.length := by
  simp only [expectedItem, Option.bind_eq_some] at h
  obtain ⟨l, hl, _⟩ := h
  exact (List.getElem?_eq_some_iff.mp hl).1

theorem mem_insertItem (items : List (String × Action)) (j it : String × Action) :
    it ∈ insertItem items j ↔ it ∈ items ∨ it = j := by
  unfold insertItem
  by_cases hj : j ∈ items
  · rw [if_pos hj]
    constructor
    · exact Or.inl
    · rintro (h | rfl)
      · exact h
      · exact hj
  · rw [if_neg hj]
    simp

theorem saveCurrent_items (st : ParseState) : (saveCurrent st).items = st.items := by
  rcases h : st.currentFile with _ | f <;> simp [saveCurrent, h]

theorem headerPath_eq_none (line : String)
    (hns : pyStartsWith line "diff --git" = false) : headerPath line = none := by
  unfold headerPath
  have hc : (('d' :: 'i' :: 'f' :: 'f' :: ' ' :: '-' :: '-' :: 'g' :: 'i' :: 't' :: ' ' :: 'a' :: '/' :: []) : List Char).isPrefixOf line.toList = false := by
    by_contra hb
    simp only [Bool.not_eq_false] at hb
    rw [List.isPrefixOf_iff_prefix] at hb
    have h10 : ("diff --git".toList : List Char) <+:
        ('d' :: 'i' :: 'f' :: 'f' :: ' ' :: '-' :: '-' :: 'g' :: 'i' :: 't' :: ' ' :: 'a' :: '/' :: []) := by
      decide
    have hcontra : pyStartsWith line "diff --git" = true := by
      unfold pyStartsWith
      rw [List.isPrefixOf_iff_prefix]
      exact h10.trans hb
    rw [hns] at hcontra
    exact Bool.false_ne_true hcontra
  rw [hc]
  simp

theorem stepLine_items_mem (st : ParseState) (line : String) (next : Option String)
    (it : String × Action) :
    it ∈ (stepLine st line next).items ↔
      it ∈ st.items ∨ ∃ fp, headerPath line = some fp ∧ it = (fp, actionOf next) := by
  unfold stepLine
  by_cases hd : pyStartsWith line "diff --git"
  · rw [if_pos hd]
    cases hh : headerPath line with
    | some fp =>
      simp only [mem_insertItem, saveCurrent_items]
      constructor
      · rintro (h | rfl)
        · exact Or.inl h
        · exact Or.inr ⟨fp, rfl, rfl⟩
      · rintro (h | ⟨fp', hfp', rfl⟩)
        · exact Or.inl h
        · cases hfp'
          exact Or.inr rfl
    | none =>
      simp [saveCurrent_items]
  · rw [if_neg hd]
    have hnone := headerPath_eq_none line (by simpa using hd)
    rcases hcf : st.currentFile with _ | f <;> simp [hcf, hnone]

theorem parseLoop_items_mem (lines : List String) (st : ParseState) (it : String × Action) :
    it ∈ (parseLoop st lines).items ↔
      it ∈ st.items ∨ ∃ i, expectedItem lines i = some it := by
  induction lines generalizing st with
  | nil => simp [parseLoop, expectedItem_nil]
  | cons line rest ih =>
    rw [show parseLoop st (line :: rest) = parseLoop (stepLine st line rest.head?) rest from rfl]
    rw [ih, stepLine_items_mem]
    constructor
    · rintro ((hmem | ⟨fp, hfp, rfl⟩) | ⟨i, hi⟩)
      · exact Or.inl hmem
      · exact Or.inr ⟨0, by simp [expectedItem_cons_zero, hfp]⟩
      · exact Or.inr ⟨i + 1, by simpa [expectedItem_cons_succ] using hi⟩
    · rintro (hmem | ⟨i, hi⟩)
      · exact Or.inl (Or.inl hmem)
      · cases i with
        | zero =>
          rw [expectedItem_cons_zero] at hi
          simp only [Option.map_eq_some'] at hi
          obtain ⟨fp, hfp, heq⟩ := hi
          exact Or.inl (Or.inr ⟨fp, hfp, heq.symm⟩)
        | succ i =>
          exact Or.inr ⟨i, by simpa [expectedItem_cons_succ] using hi⟩

theorem parseDiff_items_mem (lines : List String) (it : String × Action) :
    it ∈ (parseDiff lines).items ↔ ∃ i, expectedItem lines i = some it := by
  have hitems : (parseDiff lines).items = (parseLoop ⟨[], none, [], []⟩ lines).items := by
    simp [parseDiff, saveCurrent_items]
  rw [hitems, parseLoop_items_mem]
  simp

/-- C5: for every `diff --git` header line that matches the header pattern,
the parsed changelist contains exactly the item whose action is determined
by the line immediately following the header (`new file mode` gives ADDED,
`deleted file mode` gives DELETED, anything else — including a missing
following line — gives MODIFIED), and every item of the changelist arises
from such a header. -/
theorem claim_C5 (lines : List String) (fp : String) (a : Action) :
    (fp, a) ∈ (parseDiff lines).items ↔
      ∃ i l, lines[i]? = some l ∧ headerPath l = some fp ∧ a = actionOf lines[i + 1]? := by
  rw [parseDiff_items_mem]
  constructor
  · rintro ⟨i, hi⟩
    simp only [expectedItem, Option.bind_eq_some, Option.map_eq_some'] at hi
    obtain ⟨l, hl, fp', hfp', heq⟩ := hi
    obtain ⟨rfl, rfl⟩ := Prod.mk.injEq .. ▸ heq
    exact ⟨i, l, hl, by simpa using hfp', rfl⟩
  · rintro ⟨i, l, hl, hfp, ha⟩
    refine ⟨i, ?_⟩
    simp [expectedItem, hl, hfp, ← ha]

/-- Witness for C5 at a concrete one-file diff with a `new file mode`
marker line. -/
theorem claim_C5_witness :
    ("f", Action.ADDED) ∈ (parseDiff ["diff --git a/f b/f", "new file mode 100644"]).items :=
  (claim_C5 ["diff --git a/f b/f", "new file mode 100644"] "f" Action.ADDED).mpr
    ⟨0, "diff --git a/f b/f", by decide, by decide, by decide⟩

/-- Counterexample to C6 as stated: a diff text whose two header lines name
the same path with a `new file mode` marker after the first and a
`deleted file mode` marker after the second produces a changelist in which
the path `f` occurs with two different actions. -/
theorem claim_C6_counterexample :
    ("f", Action.ADDED) ∈ (parseDiff ["diff --git a/f b/f", "new file mode 100644",
      "diff --git a/f b/f", "deleted file mode 100644"]).items ∧
    ("f", Action.DELETED) ∈ (parseDiff ["diff --git a/f b/f", "new file mode 100644",
      "diff --git a/f b/f", "deleted file mode 100644"]).items ∧
    Action.ADDED ≠ Action.DELETED := by
  decide

/-- C6 (amended): for every diff text in which no file path is contributed
by two different header positions (the paths of the header-contributed
items are pairwise distinct), the parsed changelist contains each path with
at most one action.  The unrestricted statement is refuted by
`claim_C6_counterexample`. -/
theorem claim_C6 (lines : List String)
    (hnd : ((headerItems lines).map Prod.fst).Nodup)
    (fp : String) (a b : Action)
    (ha : (fp, a) ∈ (parseDiff lines).items)
    (hb : (fp, b) ∈ (parseDiff lines).items) : a = b := by
  rw [parseDiff_items_mem] at ha hb
  obtain ⟨i, hi⟩ := ha
  obtain ⟨j, hj⟩ := hb
  have hmi : (fp, a) ∈ headerItems lines := by
    rw [headerItems, List.mem_filterMap]
    exact ⟨i, List.mem_range.mpr (expectedItem_lt lines i _ hi), hi⟩
  have hmj : (fp, b) ∈ headerItems lines := by
    rw [headerItems, List.mem_filterMap]
    exact ⟨j, List.mem_range.mpr (expectedItem_lt lines j _ hj), hj⟩
  have := List.inj_on_of_nodup_map hnd hmi hmj rfl
  exact (Prod.mk.injEq .. ▸ this).2

/-- Witness for C6 at a concrete two-file diff with distinct paths. -/
theorem claim_C6_witness :
    ((headerItems ["diff --git a/f b/f", "index 1..2", "@@ -1 +1 @@", "-x", "+y",
        "diff --git a/g b/g", "new file mode 100644"]).map Prod.fst).Nodup ∧
    ("f", Action.MODIFIED) ∈ (parseDiff ["diff --git a/f b/f", "index 1..2", "@@ -1 +1 @@", "-x", "+y",
        "diff --git a/g b/g", "new file mode 100644"]).items ∧
    Action.MODIFIED = Action.MODIFIED :=
  ⟨by decide, by decide,
   claim_C6 ["diff --git a/f b/f", "index 1..2", "@@ -1 +1 @@", "-x", "+y",
        "diff --git a/g b/g", "new file mode 100644"] (by decide) "f"
     Action.MODIFIED Action.MODIFIED (by decide) (by decide)⟩

theorem parseHunksLoop_tagged (ls : List String) :
    ∀ (cur : Option Hunk) (acc : List Hunk),
      (∀ h ∈ acc, ∀ l ∈ h.lines, isTagged l = true) →
      (∀ h ∈ cur.toList, ∀ l ∈ h.lines, isTagged l = true) →
      ∀ h ∈ parseHunksLoop cur acc ls, ∀ l ∈ h.lines, isTagged l = true := by
  induction ls with
  | nil =>
    intro cur acc hacc hcur h hmem
    rw [show parseHunksLoop cur acc [] = acc ++ cur.toList from rfl] at hmem
    rcases List.mem_append.mp hmem with hm | hm
    · exact hacc h hm
    · exact hcur h hm
  | cons line rest ih =>
    intro cur acc hacc hcur h hmem
    rcases hx : parseHunkHeader line with _ | ⟨os, oc, ns, nc⟩
    · rcases cur with _ | hh
      · rw [show parseHunksLoop none acc (line :: rest) =
            (match parseHunkHeader line with
             | some (os, oc, ns, nc) => parseHunksLoop (some ⟨os, oc, ns, nc, []⟩) (acc ++ []) rest
             | none => parseHunksLoop none acc rest) from rfl, hx] at hmem
        exact ih none acc hacc (by simp) h hmem
      · rw [show parseHunksLoop (some hh) acc (line :: rest) =
            (match parseHunkHeader line with
             | some (os, oc, ns, nc) => parseHunksLoop (some ⟨os, oc, ns, nc, []⟩) (acc ++ [hh]) rest
             | none =>
               if isTagged line then
                 parseHunksLoop (some ⟨hh.old_start, hh.old_count, hh.new_start, hh.new_count, hh.lines ++ [line]⟩) acc rest
               else parseHunksLoop (some hh) acc rest) from rfl, hx] at hmem
        by_cases ht : isTagged line
        · rw [if_pos ht] at hmem
          refine ih _ acc hacc ?_ h hmem
          intro h' hm' l hl
          simp only [Option.toList_some, List.mem_singleton] at hm'
          subst hm'
          simp only [List.mem_append, List.mem_singleton] at hl
          rcases hl with hl | rfl
          · exact hcur hh (by simp) l hl
          · exact ht
        · rw [if_neg ht] at hmem
          exact ih _ acc hacc hcur h hmem
    · rcases cur with _ | hh
      · rw [show parseHunksLoop none acc (line :: rest) =
            (match parseHunkHeader line with
             | some (os, oc, ns, nc) => parseHunksLoop (some ⟨os, oc, ns, nc, []⟩) (acc ++ []) rest
             | none => parseHunksLoop none acc rest) from rfl, hx] at hmem
        refine ih _ _ ?_ ?_ h hmem
        · simpa using hacc
        · intro h' hm'
          simp only [Option.toList_some, List.mem_singleton] at hm'
          subst hm'
          intro l hl
          simp at hl
      · rw [show parseHunksLoop (some hh) acc (line :: rest) =
            (match parseHunkHeader line with
             | some (os, oc, ns, nc) => parseHunksLoop (some ⟨os, oc, ns, nc, []⟩) (acc ++ [hh]) rest
             | none =>
               if isTagged line then
                 parseHunksLoop (some ⟨hh.old_start, hh.old_count, hh.new_start, hh.new_count, hh.lines ++ [line]⟩) acc rest
               else parseHunksLoop (some hh) acc rest) from rfl, hx] at hmem
        refine ih _ _ ?_ ?_ h hmem
        · intro h' hm'
          rcases List.mem_append.mp hm' with hm | hm
          · exact hacc h' hm
          · simp only [List.mem_singleton] at hm
            subst hm
            exact hcur h' (by simp)
        · intro h' hm'
          simp only [Option.toList_some, List.mem_singleton] at hm'
          subst hm'
          intro l hl
          simp at hl

theorem parseHunksLoop_skip (cur : Option Hunk) (acc : List Hunk) (junk : String)
    (ys : List String) (h1 : isTagged junk = false) (h2 : parseHunkHeader junk = none) :
    parseHunksLoop cur acc (junk :: ys) = parseHunksLoop cur acc ys := by
  rcases cur with _ | h
  · rw [show parseHunksLoop none acc (junk :: ys) =
        (match parseHunkHeader junk with
         | some (os, oc, ns, nc) => parseHunksLoop (some ⟨os, oc, ns, nc, []⟩) (acc ++ []) ys
         | none => parseHunksLoop none acc ys) from rfl, h2]
  · rw [show parseHunksLoop (some h) acc (junk :: ys) =
        (match parseHunkHeader junk with
         | some (os, oc, ns, nc) => parseHunksLoop (some ⟨os, oc, ns, nc, []⟩) (acc ++ [h]) ys
         | none =>
           if isTagged junk then
             parseHunksLoop (some ⟨h.old_start, h.old_count, h.new_start, h.new_count, h.lines ++ [junk]⟩) acc ys
           else parseHunksLoop (some h) acc ys) from rfl, h2]
    rw [if_neg (by simp [h1])]

theorem parseHunksLoop_skip_append (junk : String) (ys : List String)
    (h1 : isTagged junk = false) (h2 : parseHunkHeader junk = none) :
    ∀ (xs : List String) (cur : Option Hunk) (acc : List Hunk),
      parseHunksLoop cur acc (xs ++ junk :: ys) = parseHunksLoop cur acc (xs ++ ys) := by
  intro xs
  induction xs with
  | nil => exact fun cur acc => parseHunksLoop_skip cur acc junk ys h1 h2
  | cons x xs ih =>
    intro cur acc
    simp only [List.cons_append, parseHunksLoop]
    rcases hx : parseHunkHeader x with _ | ⟨os, oc, ns, nc⟩
    · rcases cur with _ | h
      · simp only [hx]
        exact ih none acc
      · simp only [hx]
        by_cases ht : isTagged x
        · rw [if_pos ht, if_pos ht]
          exact ih _ acc
        · rw [if_neg ht, if_neg ht]
          exact ih _ acc
    · rcases cur with _ | h
      · simp only [hx]
        exact ih _ _
      · simp only [hx]
        exact ih _ _

/-- Counterexample to C7 as stated: in the section
`["@@ -1 +1 @@", "+a", "junk", "+b"]` the untagged line `junk` does not end
hunk collection — the later line `+b` still becomes part of the hunk's
lines, contradicting "no line at or after such a line becomes part of that
hunk's lines". -/
theorem claim_C7_counterexample :
    parse_hunks ["@@ -1 +1 @@", "+a", "junk", "+b"] = [⟨1, 1, 1, 1, ["+a", "+b"]⟩] ∧
    "+b" ∈ (Hunk.mk 1 1 1 1 ["+a", "+b"]).lines := by
  decide

/-- C7 (amended): during hunk parsing only lines beginning with `+`, `-`,
space or backslash are retained as content of the current hunk; a line
beginning with any other character is skipped but does **not** end
collection — deleting such a line from anywhere in the section leaves the
parse unchanged, so later tagged lines before the next header still join
the current hunk (the original "ends collection" reading is refuted by
`claim_C7_counterexample`). -/
theorem claim_C7 (sectionLines : List String) (junk : String) (xs ys : List String)
    (h1 : isTagged junk = false) (h2 : parseHunkHeader junk = none) :
    (∀ h ∈ parse_hunks sectionLines, ∀ l ∈ h.lines, isTagged l = true) ∧
    parse_hunks (xs ++ junk :: ys) = parse_hunks (xs ++ ys) := by
  constructor
  · exact parseHunksLoop_tagged sectionLines none [] (by simp) (by simp)
  · exact parseHunksLoop_skip_append junk ys h1 h2 xs none []

/-- Witness for C7 with the line `junk` skipped between two retained
lines. -/
theorem claim_C7_witness :
    isTagged "junk" = false ∧ parseHunkHeader "junk" = none ∧
    parse_hunks (["@@ -1 +1 @@", "+a"] ++ "junk" :: ["+b"]) =
      parse_hunks (["@@ -1 +1 @@", "+a"] ++ ["+b"]) :=
  ⟨by decide, by decide,
   (claim_C7 [] "junk" ["@@ -1 +1 @@", "+a"] ["+b"] (by decide) (by decide)).2⟩

theorem get_diff_disk (c : DiffFileClient) : (get_diff c).2.disk = c.disk := by
  rcases hc : c.changelistCache with _ | r <;> simp [get_diff, hc]

theorem get_diff_repoState (c : DiffFileClient) : (get_diff c).2.repoState = c.repoState := by
  rcases hc : c.changelistCache with _ | r <;> simp [get_diff, hc]

/-- C4: boundary cases of content reconstruction — an ADDED file
reconstructed at the OLD side is the empty string, a DELETED file
reconstructed at the NEW side is the empty string, and a path absent from
the changelist yields the on-disk content unchanged on both reconstruction
sides and through the public `get_file_content_at_revision` for every
revision (and that content is the empty string when the file is absent
from disk). -/
theorem claim_C4 (c : DiffFileClient) (fp : String) (hfp : normSlashes fp = fp) :
    (∀ p, findItem (get_diff c).1.items fp = some (p, Action.ADDED) →
      (get_old_file_content c fp).1 = "") ∧
    (∀ p, findItem (get_diff c).1.items fp = some (p, Action.DELETED) →
      (get_new_file_content c fp).1 = "") ∧
    (findItem (get_diff c).1.items fp = none →
      (get_new_file_content c fp).1 = read_file_from_disk c fp ∧
      (get_old_file_content c fp).1 = read_file_from_disk c fp ∧
      (∀ rev, (get_file_content_at_revision c rev fp).1 = read_file_from_disk c fp) ∧
      (c.disk fp = none → read_file_from_disk c fp = "")) := by
  have hdisk : read_file_from_disk (get_diff c).2 fp = read_file_from_disk c fp := by
    simp [read_file_from_disk, get_diff_disk]
  refine ⟨?_, ?_, ?_⟩
  · intro p hadd
    simp only [get_old_file_content, hadd]
  · intro p hdel
    simp only [get_new_file_content, hdel]
  · intro hnone
    have hnew : (get_new_file_content c fp).1 = read_file_from_disk c fp := by
      simp only [get_new_file_content, hnone, hdisk]
    have hold : (get_old_file_content c fp).1 = read_file_from_disk c fp := by
      simp only [get_old_file_content, hnone, hdisk]
    refine ⟨hnew, hold, ?_, ?_⟩
    · intro rev
      unfold get_file_content_at_revision
      rw [hfp]
      by_cases hrev : is_new_revision rev
      · rw [if_pos hrev]
        by_cases hrs : c.repoState = "new"
        · rw [if_pos hrs]
        · rw [if_neg hrs]
          exact hnew
      · rw [if_neg hrev]
        by_cases hrs : c.repoState = "new"
        · rw [if_pos hrs]
          exact hold
        · rw [if_neg hrs]
    · intro habs
      simp [read_file_from_disk, habs]

/-- Witness for C4 at a concrete client whose diff adds `f`, with an empty
disk. -/
theorem claim_C4_witness :
    normSlashes "f" = "f" ∧
    findItem (get_diff ⟨"new", "diff --git a/f b/f\nnew file mode 100644\n@@ -0,0 +1 @@\n+x",
        fun _ => none, none⟩).1.items "f" = some ("f", Action.ADDED) ∧
    (get_old_file_content ⟨"new", "diff --git a/f b/f\nnew file mode 100644\n@@ -0,0 +1 @@\n+x",
        fun _ => none, none⟩ "f").1 = "" :=
  ⟨by decide, by decide,
   (claim_C4 ⟨"new", "diff --git a/f b/f\nnew file mode 100644\n@@ -0,0 +1 @@\n+x",
       fun _ => none, none⟩ "f" (by decide)).1 "f" (by decide)⟩

theorem get_diff_idem (c : DiffFileClient) :
    get_diff (get_diff c).2 = ((get_diff c).1, (get_diff c).2) := by
  rcases hc : c.changelistCache with _ | r <;> simp [get_diff, hc]

theorem get_new_file_content_snd (c : DiffFileClient) (fp : String) :
    (get_new_file_content c fp).2 = (get_diff c).2 := by
  unfold get_new_file_content
  rcases h : findItem (get_diff c).1.items fp with _ | ⟨p, a⟩
  · simp [h]
  · rcases a
    · simp [h]
    · simp only [h]
      split
      · rfl
      · rfl
    · simp [h]

theorem get_old_file_content_snd (c : DiffFileClient) (fp : String) :
    (get_old_file_content c fp).2 = (get_diff c).2 := by
  unfold get_old_file_content
  rcases h : findItem (get_diff c).1.items fp with _ | ⟨p, a⟩
  · simp [h]
  · rcases a
    · simp [h]
    · simp only [h]
      split
      · rfl
      · rfl
    · simp [h]

theorem get_new_file_content_stable (c : DiffFileClient) (fp : String) :
    get_new_file_content (get_diff c).2 fp = get_new_file_content c fp := by
  unfold get_new_file_content
  rw [get_diff_idem]

theorem get_old_file_content_stable (c : DiffFileClient) (fp : String) :
    get_old_file_content (get_diff c).2 fp = get_old_file_content c fp := by
  unfold get_old_file_content
  rw [get_diff_idem]

/-- C8: parsing is idempotent — a second `get_diff` on the state left by a
first call returns the same (structurally equal) changelist, and a repeated
`get_file_content_at_revision` for the same revision and path on the state
left by a first call returns the identical string (the diff text and disk
snapshot being fixed inside the client). -/
theorem claim_C8 (c : DiffFileClient) (rev fp : String) :
    (get_diff (get_diff c).2).1 = (get_diff c).1 ∧
    (get_file_content_at_revision (get_file_content_at_revision c rev fp).2 rev fp).1 =
      (get_file_content_at_revision c rev fp).1 := by
  refine ⟨by rw [get_diff_idem], ?_⟩
  unfold get_file_content_at_revision
  by_cases hrev : is_new_revision rev
  · simp only [hrev, if_true]
    by_cases hrs : c.repoState = "new"
    · simp [hrs]
    · simp only [hrs, if_false]
      rw [get_new_file_content_snd, get_diff_repoState]
      simp only [hrs, if_false]
      rw [get_new_file_content_stable]
  · simp only [hrev, Bool.false_eq_true, if_false]
    by_cases hrs : c.repoState = "new"
    · simp only [hrs, if_true]
      rw [get_old_file_content_snd, get_diff_repoState]
      simp only [hrs, if_true]
      rw [get_old_file_content_stable]
    · simp [hrs]

theorem takeWhile_append_all (p : Char → Bool) (l r : List Char)
    (h : ∀ a ∈ l, p a = true) :
    (l ++ r).takeWhile p = l ++ r.takeWhile p := by
  induction l with
  | nil => simp
  | cons c cs ih =>
    simp only [List.cons_append, List.takeWhile_cons]
    rw [h c (by simp)]
    simp only [if_true, List.cons.injEq, true_and]
    exact ih (fun a ha => h a (by simp [ha]))

/-- C9: GoogleTest conversion maps a 3-part identifier
`module!!!Suite!!!Case` to `Suite.Case` and a 2-part identifier
`module!!!Suite` to `Suite.*`, silently skipping identifiers with fewer
parts, joining results with `:`; CTest conversion maps a wildcard
identifier `*!!!Name!!!*` to the bare `Name`, joining results with `|`,
and best-effort converts a non-wildcard identifier with at least two parts
using its middle part. In particular the concrete scenarios hold. -/
theorem claim_C9 (l3 l2 l1 lw lf : String) (m s c p1 name mf pf : List Char)
    (restf : List (List Char))
    (h3 : splitBangs (pyStrip l3).toList = [m, s, c])
    (h3ne : (pyStrip l3).toList ≠ [])
    (h2 : splitBangs (pyStrip l2).toList = [m, s])
    (h2ne : (pyStrip l2).toList ≠ [])
    (h1 : splitBangs (pyStrip l1).toList = [p1])
    (hw : (pyStrip lw).toList = '*' :: '!' :: '!' :: '!' :: (name ++ '!' :: '!' :: '!' :: '*' :: []))
    (hne : name ≠ []) (hbang : ∀ ch ∈ name, ch ≠ '!')
    (hfne : (pyStrip lf).toList ≠ [])
    (hfnw : ctestMatch (pyStrip lf).toList = none)
    (hfsplit : splitBangs (pyStrip lf).toList = mf :: pf :: restf) :
    gtestLine l3 = some ⟨s ++ '.' :: c⟩ ∧
    gtestLine l2 = some ⟨s ++ '.' :: '*' :: []⟩ ∧
    gtestLine l1 = none ∧
    ctestLine lw = some ⟨name⟩ ∧
    ctestLine lf = some ⟨pf⟩ ∧
    convert_gtest_filter ["mod!!!SuiteA!!!Case1", "mod!!!SuiteB!!!Case2"] = "SuiteA.Case1:SuiteB.Case2" ∧
    convert_ctest_filter ["*!!!TestX!!!*"] = "TestX" ∧
    convert_ctest_filter ["*!!!TestX!!!*", "mod!!!SuiteA!!!Case1"] = "TestX|SuiteA" := by
  refine ⟨?_, ?_, ?_, ?_, ?_, by decide, by decide, by decide⟩
  · simp only [gtestLine]
    rw [if_neg h3ne, h3]
  · simp only [gtestLine]
    rw [if_neg h2ne, h2]
  · simp only [gtestLine]
    by_cases hne1 : (pyStrip l1).toList = []
    · rw [if_pos hne1]
    · rw [if_neg hne1, h1]
  · have hlw : (pyStrip lw).toList ≠ [] := by rw [hw]; simp
    simp only [ctestLine]
    rw [if_neg hlw, hw]
    simp only [ctestMatch]
    have hall : ∀ a ∈ name, (a != '!') = true := by
      intro a ha
      simpa using hbang a ha
    rw [takeWhile_append_all _ name _ hall]
    rw [show (('!' :: '!' :: '!' :: '*' :: []) : List Char).takeWhile (fun ch => ch != '!') = [] from rfl]
    rw [List.append_nil]
    rw [if_neg hne]
    rw [show name.length = name.length from rfl, List.drop_left name ('!' :: '!' :: '!' :: '*' :: [])]
    rw [show (('!' :: '!' :: '!' :: '*' :: []) : List Char).isPrefixOf ('!' :: '!' :: '!' :: '*' :: []) = true from rfl]
    simp
  · simp only [ctestLine]
    rw [if_neg hfne, hfnw, hfsplit]

/-- Witness for C9 at the spec's concrete identifiers. -/
theorem claim_C9_witness :
    splitBangs (pyStrip "mod!!!SuiteA!!!Case1").toList =
      [['m', 'o', 'd'], ['S', 'u', 'i', 't', 'e', 'A'], ['C', 'a', 's', 'e', '1']] ∧
    gtestLine "mod!!!SuiteA!!!Case1" =
      some ⟨['S', 'u', 'i', 't', 'e', 'A'] ++ '.' :: ['C', 'a', 's', 'e', '1']⟩ ∧
    ctestLine "*!!!TestX!!!*" = some ⟨['T', 'e', 's', 't', 'X']⟩ ∧
    ctestLine "mod!!!SuiteA!!!Case1" = some ⟨['S', 'u', 'i', 't', 'e', 'A']⟩ ∧
    convert_gtest_filter ["mod!!!SuiteA!!!Case1", "mod!!!SuiteB!!!Case2"] = "SuiteA.Case1:SuiteB.Case2" ∧
    convert_ctest_filter ["*!!!TestX!!!*", "mod!!!SuiteA!!!Case1"] = "TestX|SuiteA" := by
  have hmain := claim_C9 "mod!!!SuiteA!!!Case1" "mod!!!SuiteA" "noparts" "*!!!TestX!!!*"
    "mod!!!SuiteA!!!Case1"
    ['m', 'o', 'd'] ['S', 'u', 'i', 't', 'e', 'A'] ['C', 'a', 's', 'e', '1']
    ['n', 'o', 'p', 'a', 'r', 't', 's'] ['T', 'e', 's', 't', 'X']
    ['m', 'o', 'd'] ['S', 'u', 'i', 't', 'e', 'A'] [['C', 'a', 's', 'e', '1']]
    (by decide) (by decide) (by decide) (by decide) (by decide) (by decide) (by decide)
    (by decide) (by decide) (by decide) (by decide)
  exact ⟨by decide, hmain.1, hmain.2.2.2.1, hmain.2.2.2.2.1, hmain.2.2.2.2.2.1,
    hmain.2.2.2.2.2.2.2⟩

/-- C10: `get_file_content_at_revision` treats a revision as requesting the
NEW side exactly when its lowercasing is one of `head`, `new`, `to` or the
empty string; the result depends on the revision only through this
classification, and together with `repo_state` the classification alone
decides between a verbatim disk read and forward/reverse hunk
reconstruction. -/
theorem claim_C10 (c : DiffFileClient) (rev rev2 fp : String) :
    (is_new_revision rev = true ↔
      (pyLower rev = "head" ∨ pyLower rev = "new" ∨ pyLower rev = "to" ∨ pyLower rev = "")) ∧
    (is_new_revision rev2 = is_new_revision rev →
      (get_file_content_at_revision c rev2 fp).1 = (get_file_content_at_revision c rev fp).1) ∧
    (is_new_revision rev = true →
      (get_file_content_at_revision c rev fp).1 =
        (if c.repoState = "new" then read_file_from_disk c fp
         else (get_new_file_content c (normSlashes fp)).1)) ∧
    (is_new_revision rev = false →
      (get_file_content_at_revision c rev fp).1 =
        (if c.repoState = "new" then (get_old_file_content c (normSlashes fp)).1
         else read_file_from_disk c fp)) := by
  refine ⟨?_, ?_, ?_, ?_⟩
  · simp [is_new_revision, or_assoc]
  · intro heq
    unfold get_file_content_at_revision
    rw [heq]
  · intro hnew
    unfold get_file_content_at_revision
    simp only [hnew, if_true]
    by_cases hrs : c.repoState = "new" <;> simp [hrs]
  · intro hold
    unfold get_file_content_at_revision
    simp only [hold, Bool.false_eq_true, if_false]
    by_cases hrs : c.repoState = "new" <;> simp [hrs]

/-- Witness for C10 at a concrete client and the revision `HEAD`. -/
theorem claim_C10_witness :
    is_new_revision "HEAD" = true ∧
    (get_file_content_at_revision ⟨"new", "", fun _ => some "data", none⟩ "HEAD" "f").1 =
      (if (DiffFileClient.mk "new" "" (fun _ => some "data") none).repoState = "new"
       then read_file_from_disk ⟨"new", "", fun _ => some "data", none⟩ "f"
       else (get_new_file_content ⟨"new", "", fun _ => some "data", none⟩ (normSlashes "f")).1) :=
  ⟨by decide, (claim_C10 ⟨"new", "", fun _ => some "data", none⟩ "HEAD" "x" "f").2.2.1 (by decide)⟩

end BinaryRTS
